import Mathlib

/-!
Shallow embedding of the Expense-tracker repository (src/code.py).

The program is a pandas-backed console expense ledger.  We embed it as
follows:

* a DataFrame row becomes a `Record`; pandas missing values (`NaN`/`NaT`)
  are `Option.none`, so `Record.amount : Option ℚ` and
  `Record.category Record.description : Option String`;
* machine floats become `ℚ` (every Python float is a decimal-denominator
  rational, and `repr`/`float()` round-trip exactly, which the rational
  renderer/parser below mirror);
* a `Date` cell is `DateCell`: `NaT`, a parsed timestamp (`DateVal`, a
  calendar date plus a seconds-within-day component so that timestamp
  truncation is observable), or an unparsed text cell (pandas leaves the
  whole column as text when `parse_dates` fails on it);
* the CSV file is modelled at field granularity: a data row is a
  `RawRow` of four field strings.  The comma/quoting layer of the CSV
  format is abstracted away (pandas quotes and unquotes fields exactly),
  but the *content* of each field is the literal text, so the
  missing-value convention of `read_csv` (empty field or an NA sentinel
  reads back as `NaN`) and the `to_numeric(errors=coerce)` coercion are
  modelled faithfully;
* methods that print and mutate `self` become functions from the tracker
  state to (new state, result, message); the I/O outcome of `to_csv` is
  an explicit boolean parameter since the code catches every exception.
-/

/-! ### Decimal digit strings -/

/-- The character for a single decimal digit (`0 ≤ n ≤ 9`). -/
def digitChar (n : ℕ) : Char := Char.ofNat (48 + n)

/-- Numeric value of a decimal digit character. -/
def digitVal (c : Char) : ℕ := c.toNat - 48

/-- Fuel-driven little-endian decimal digits of a natural number. -/
def natCharsAux : ℕ → ℕ → List Char
  | 0, _ => []
  | _ + 1, 0 => []
  | fuel + 1, n + 1 => digitChar ((n + 1) % 10) :: natCharsAux fuel ((n + 1) / 10)

/-- Big-endian decimal digits of `n`; empty for `0`. -/
def natChars (n : ℕ) : List Char := (natCharsAux n n).reverse

/-- Big-endian decimal digits of `n`, left-padded with `0` to width `j`.
`padNat 1 n` is exactly Python `str(n)` for naturals. -/
def padNat (j n : ℕ) : List Char :=
  List.replicate (j - (natChars n).length) '0' ++ natChars n

/-- Value of a big-endian decimal digit string. -/
def digitsVal (cs : List Char) : ℕ := cs.foldl (fun a c => 10 * a + digitVal c) 0

/-- Parse a non-empty all-digit character list as a natural number. -/
def parseNatList (cs : List Char) : Option ℕ :=
  if cs.isEmpty then none
  else if cs.all Char.isDigit then some (digitsVal cs) else none

/-- Split a character list at the first character satisfying `p`:
returns the prefix before it and, when the marker occurs, the suffix
after it. -/
def splitFirst (p : Char → Bool) : List Char → List Char × Option (List Char)
  | [] => ([], none)
  | c :: rest =>
    if p c then ([], some rest)
    else
      let r := splitFirst p rest
      (c :: r.1, r.2)

/-- Strip leading and trailing whitespace, as Python `str.strip()` and
`float()` do on their argument. -/
def trimChars (cs : List Char) : List Char :=
  ((cs.dropWhile Char.isWhitespace).reverse.dropWhile Char.isWhitespace).reverse

/-! ### The decimal parser

`parseDecimal` models the number parser shared by Python `float(str)`
(used in `add_expense`) and `pandas.to_numeric(errors=coerce)` (used on
the `Amount` column in `__init__`) on finite decimal literals: optional
surrounding whitespace, optional sign, a digit string with at most one
decimal point, and an optional decimal exponent.  The non-finite
literals (`nan`, `inf`, `infinity`) that `float()` also accepts are
handled by `pyFloat` further below, which `add_expense` uses;
`parseDecimal` alone is the finite fragment. -/

/-- Mantissa: digits with at most one `.`, at least one digit overall. -/
def parseMantissa (cs : List Char) : Option ℚ :=
  let s := splitFirst (fun c => c = '.') cs
  match s.2 with
  | none => (parseNatList s.1).map (fun n => (n : ℚ))
  | some fp =>
    if fp.isEmpty then (parseNatList s.1).map (fun n => (n : ℚ))
    else if s.1.isEmpty then
      (parseNatList fp).map (fun f => (f : ℚ) / 10 ^ fp.length)
    else
      match parseNatList s.1, parseNatList fp with
      | some n, some f => some ((n : ℚ) + (f : ℚ) / 10 ^ fp.length)
      | _, _ => none

/-- Signed integer exponent after `e`/`E`. -/
def parseExp (cs : List Char) : Option ℤ :=
  match cs with
  | [] => none
  | c :: rest =>
    if c = '-' then (parseNatList rest).map (fun n => -(n : ℤ))
    else if c = '+' then (parseNatList rest).map (fun n => (n : ℤ))
    else (parseNatList (c :: rest)).map (fun n => (n : ℤ))

/-- Unsigned decimal literal with optional exponent part. -/
def parseUnsigned (cs : List Char) : Option ℚ :=
  let s := splitFirst (fun c => c = 'e' ∨ c = 'E') cs
  match s.2 with
  | none => parseMantissa s.1
  | some ex =>
    match parseMantissa s.1, parseExp ex with
    | some m, some e => some (m * 10 ^ e)
    | _, _ => none

/-- Signed decimal literal. -/
def parseDecChars (cs : List Char) : Option ℚ :=
  match cs with
  | [] => none
  | c :: rest =>
    if c = '-' then (parseUnsigned rest).map (fun a => -a)
    else if c = '+' then parseUnsigned rest
    else parseUnsigned (c :: rest)

/-- Parse a string as a finite decimal number; `none` models the
`ValueError` of `float()` and the `NaN` result of coercion. -/
def parseDecimal (s : String) : Option ℚ :=
  parseDecChars (trimChars s.data)

/-! ### Rendering numbers

`renderAmount` models Python `repr(float)` (what `DataFrame.to_csv`
writes for a float cell): the shortest exact decimal form, with at least
one fractional digit.  It is exact precisely on rationals with a
decimal-power denominator — which is every value a Python float can
hold.  (For huge or tiny magnitudes `repr` switches to exponent
notation; the rational model has no such thresholds, so the renderer
always uses positional notation, which `float()` parses back exactly as
well.) -/

/-- Body of the decimal rendering at scale `k` (so `q * 10 ^ k` is an
integer `m`): sign, integer digits, point, `k` fractional digits
(or the single digit `0` when `k = 0`). -/
def renderAmountAt (m : ℤ) (k : ℕ) : List Char :=
  if k = 0 then (if m < 0 then ['-'] else []) ++ padNat 1 m.natAbs ++ '.' :: padNat 1 0
  else
    (if m < 0 then ['-'] else []) ++
      padNat 1 (m.natAbs / 10 ^ k) ++ '.' :: padNat k (m.natAbs % 10 ^ k)

/-- Decimal rendering of a rational with decimal-power denominator;
the smallest adequate scale is located by search (`q.den ∣ 10 ^ k` has a
witness `k ≤ q.den` whenever it has one at all). -/
def renderAmount (q : ℚ) : List Char :=
  match (List.range (q.den + 1)).find? (fun k => decide (q.den ∣ 10 ^ k)) with
  | some k => renderAmountAt (q.num * (((10 ^ k : ℕ) / q.den : ℕ) : ℤ)) k
  | none => ['0']

/-! ### Quick evaluation checks for the parser and renderer -/

example : parseDecimal "12.5" = some (25 / 2) := by
  simp +decide [parseDecimal, trimChars, parseDecChars, parseUnsigned, parseMantissa,
    splitFirst, parseNatList, digitsVal, digitVal]
  norm_num

example : parseDecimal " -0.25 " = some (-(1 / 4)) := by
  simp +decide [parseDecimal, trimChars, parseDecChars, parseUnsigned, parseMantissa,
    splitFirst, parseNatList, digitsVal, digitVal]
  norm_num

example : parseDecimal "1.5e2" = some 150 := by
  simp +decide [parseDecimal, trimChars, parseDecChars, parseUnsigned, parseMantissa,
    parseExp, splitFirst, parseNatList, digitsVal, digitVal]
  norm_num

example : parseDecimal "abc" = none := by
  simp +decide [parseDecimal, trimChars, parseDecChars, parseUnsigned, parseMantissa,
    splitFirst, parseNatList, digitsVal, digitVal]

example : parseDecimal "" = none := by
  simp +decide [parseDecimal, trimChars, parseDecChars]

example : parseDecimal "5." = some 5 := by
  simp +decide [parseDecimal, trimChars, parseDecChars, parseUnsigned, parseMantissa,
    splitFirst, parseNatList, digitsVal, digitVal]

example : parseDecimal "$15.00" = none := by
  simp +decide [parseDecimal, trimChars, parseDecChars, parseUnsigned, parseMantissa,
    splitFirst, parseNatList, digitsVal, digitVal]

example : renderAmount ⟨25, 2, by norm_num, by norm_num⟩ = ['1', '2', '.', '5'] := by decide

example : renderAmount 5 = ['5', '.', '0'] := by decide

/-! ### Digit-string lemmas: parsing is a left inverse of rendering -/

theorem natCharsAux_fuel {f g n : ℕ} (hf : n ≤ f) (hg : n ≤ g) :
    natCharsAux f n = natCharsAux g n := by
  induction f generalizing g n with
  | zero =>
    have hn : n = 0 := Nat.le_zero.mp hf
    subst hn
    cases g <;> simp [natCharsAux]
  | succ f ih =>
    cases n with
    | zero => cases g <;> simp [natCharsAux]
    | succ m =>
      cases g with
      | zero => exact absurd hg (by omega)
      | succ g =>
        simp only [natCharsAux]
        have hlt : (m + 1) / 10 < m + 1 := Nat.div_lt_self (by omega) (by omega)
        have h1 : natCharsAux f ((m + 1) / 10) = natCharsAux g ((m + 1) / 10) :=
          ih (by omega) (by omega)
        rw [h1]

theorem natChars_pos_eq {n : ℕ} (hn : 0 < n) :
    natChars n = natChars (n / 10) ++ [digitChar (n % 10)] := by
  obtain ⟨m, rfl⟩ : ∃ m, n = m + 1 := ⟨n - 1, by omega⟩
  have hlt : (m + 1) / 10 < m + 1 := Nat.div_lt_self (by omega) (by omega)
  simp only [natChars, natCharsAux]
  rw [natCharsAux_fuel (f := m) (g := (m + 1) / 10) (by omega) (le_refl _)]
  simp

theorem digitChar_isDigit {d : ℕ} (hd : d < 10) : (digitChar d).isDigit = true := by
  have h : ∀ i : Fin 10, (digitChar i.val).isDigit = true := by decide
  exact h ⟨d, hd⟩

theorem digitVal_digitChar {d : ℕ} (hd : d < 10) : digitVal (digitChar d) = d := by
  have h : ∀ i : Fin 10, digitVal (digitChar i.val) = i.val := by decide
  exact h ⟨d, hd⟩

theorem natChars_digits {n : ℕ} : ∀ c ∈ natChars n, c.isDigit = true := by
  induction n using Nat.strong_induction_on with
  | _ n ih =>
    rcases Nat.eq_zero_or_pos n with hn | hn
    · subst hn
      intro c hc
      simp [natChars, natCharsAux] at hc
    · rw [natChars_pos_eq hn]
      intro c hc
      rcases List.mem_append.mp hc with h | h
      · exact ih (n / 10) (Nat.div_lt_self hn (by omega)) c h
      · simp at h
        subst h
        exact digitChar_isDigit (Nat.mod_lt _ (by omega))

theorem digitsVal_natChars {n : ℕ} : digitsVal (natChars n) = n := by
  induction n using Nat.strong_induction_on with
  | _ n ih =>
    rcases Nat.eq_zero_or_pos n with hn | hn
    · subst hn
      simp [natChars, natCharsAux, digitsVal]
    · rw [natChars_pos_eq hn]
      simp only [digitsVal, List.foldl_append, List.foldl_cons, List.foldl_nil]
      rw [digitVal_digitChar (Nat.mod_lt _ (by omega))]
      have := ih (n / 10) (Nat.div_lt_self hn (by omega))
      simp only [digitsVal] at this
      rw [this]
      omega

theorem natChars_length_le {n k : ℕ} (h : n < 10 ^ k) : (natChars n).length ≤ k := by
  induction n using Nat.strong_induction_on generalizing k with
  | _ n ih =>
    rcases Nat.eq_zero_or_pos n with hn | hn
    · subst hn
      simp [natChars, natCharsAux]
    · rw [natChars_pos_eq hn]
      have hk : 0 < k := by
        by_contra hk
        push_neg at hk
        interval_cases k
        omega
      obtain ⟨j, rfl⟩ : ∃ j, k = j + 1 := ⟨k - 1, by omega⟩
      have hdiv : n / 10 < 10 ^ j := by
        rw [Nat.div_lt_iff_lt_mul (by omega)]
        calc n < 10 ^ (j + 1) := h
        _ = 10 ^ j * 10 := by ring
      have := ih (n / 10) (Nat.div_lt_self hn (by omega)) hdiv
      simp only [List.length_append, List.length_cons, List.length_nil]
      omega

theorem natChars_ne_nil {n : ℕ} (hn : 0 < n) : natChars n ≠ [] := by
  intro h
  have := digitsVal_natChars (n := n)
  rw [h] at this
  simp [digitsVal] at this
  omega

theorem digitsVal_replicate_zero_append {j : ℕ} {cs : List Char} :
    digitsVal (List.replicate j '0' ++ cs) = digitsVal cs := by
  have h0 : ∀ i : ℕ, List.foldl (fun a c => 10 * a + digitVal c) 0 (List.replicate i '0') = 0 := by
    intro i
    induction i with
    | zero => simp
    | succ i ih => simpa [List.replicate_succ, digitVal]
  simp [digitsVal, List.foldl_append, h0]

theorem padNat_digits {j n : ℕ} : ∀ c ∈ padNat j n, c.isDigit = true := by
  intro c hc
  rcases List.mem_append.mp hc with h | h
  · have := List.eq_of_mem_replicate h
    subst this
    decide
  · exact natChars_digits c h

theorem padNat_ne_nil {j n : ℕ} (hj : 0 < j) : padNat j n ≠ [] := by
  intro h
  rcases List.append_eq_nil.mp h with ⟨h1, h2⟩
  have := congrArg List.length h1
  simp at this
  rcases Nat.eq_zero_or_pos n with hn | hn
  · subst hn
    simp [natChars, natCharsAux] at this
    omega
  · exact natChars_ne_nil hn h2

theorem digitsVal_padNat {j n : ℕ} : digitsVal (padNat j n) = n := by
  rw [padNat, digitsVal_replicate_zero_append, digitsVal_natChars]

theorem padNat_length {k n : ℕ} (h : n < 10 ^ k) : (padNat k n).length = k := by
  have := natChars_length_le h
  simp [padNat]
  omega

theorem parseNatList_padNat {j n : ℕ} (hj : 0 < j) :
    parseNatList (padNat j n) = some n := by
  rw [parseNatList]
  rw [if_neg (by simpa using padNat_ne_nil hj)]
  rw [if_pos (by simpa using padNat_digits)]
  rw [digitsVal_padNat]

theorem splitFirst_of_all_neg {p : Char → Bool} {cs : List Char}
    (h : ∀ c ∈ cs, p c = false) : splitFirst p cs = (cs, none) := by
  induction cs with
  | nil => rfl
  | cons c rest ih =>
    have hc : p c = false := h c (by simp)
    simp only [splitFirst, hc, Bool.false_eq_true, if_false]
    rw [ih (fun x hx => h x (by simp [hx]))]

theorem splitFirst_found {p : Char → Bool} {xs ys : List Char} {c : Char}
    (h : ∀ x ∈ xs, p x = false) (hc : p c = true) :
    splitFirst p (xs ++ c :: ys) = (xs, some ys) := by
  induction xs with
  | nil => simp [splitFirst, hc]
  | cons x rest ih =>
    have hx : p x = false := h x (by simp)
    simp only [List.cons_append, splitFirst, hx, Bool.false_eq_true, if_false]
    have h2 := ih (fun y hy => h y (by simp [hy]))
    rw [show rest.append (c :: ys) = rest ++ c :: ys from rfl, h2]

theorem dropWhile_of_all_neg {p : Char → Bool} {cs : List Char}
    (h : ∀ c ∈ cs, p c = false) : cs.dropWhile p = cs := by
  cases cs with
  | nil => rfl
  | cons c rest => simp [List.dropWhile_cons, h c (by simp)]

theorem trimChars_of_no_white {cs : List Char}
    (h : ∀ c ∈ cs, c.isWhitespace = false) : trimChars cs = cs := by
  rw [trimChars, dropWhile_of_all_neg h, dropWhile_of_all_neg, List.reverse_reverse]
  intro c hc
  exact h c (List.mem_reverse.mp hc)

theorem isDigit_char_ne {c : Char} (h : c.isDigit = true) :
    c ≠ '.' ∧ c ≠ 'e' ∧ c ≠ 'E' ∧ c ≠ '-' ∧ c ≠ '+' := by
  refine ⟨?_, ?_, ?_, ?_, ?_⟩ <;> intro h1 <;> subst h1 <;> exact absurd h (by decide)

theorem isDigit_not_white {c : Char} (h : c.isDigit = true) : c.isWhitespace = false := by
  by_contra hw
  have hw2 : c.isWhitespace = true := by
    cases hx : c.isWhitespace
    · exact absurd hx hw
    · rfl
  have hmem : ((c = ' ' ∨ c = '\t') ∨ c = '\x0d') ∨ c = '\n' := by
    simpa [Char.isWhitespace] using hw2
  rcases hmem with ((h1 | h1) | h1) | h1 <;> subst h1 <;> exact absurd h (by decide)

/-! ### Round-trip: parsing recovers a rendered decimal exactly -/

theorem parseUnsigned_ipfp {n f j : ℕ} (hj : 0 < j) (hf : f < 10 ^ j) :
    parseUnsigned (padNat 1 n ++ '.' :: padNat j f) = some ((n : ℚ) + (f : ℚ) / 10 ^ j) := by
  have hdig : ∀ c ∈ padNat 1 n ++ '.' :: padNat j f, c.isDigit = true ∨ c = '.' := by
    intro c hc
    rcases List.mem_append.mp hc with h | h
    · exact Or.inl (padNat_digits c h)
    · rcases List.mem_cons.mp h with h1 | h1
      · exact Or.inr h1
      · exact Or.inl (padNat_digits c h1)
  have hsplitE :
      splitFirst (fun c => decide (c = 'e' ∨ c = 'E')) (padNat 1 n ++ '.' :: padNat j f) =
        (padNat 1 n ++ '.' :: padNat j f, none) := by
    apply splitFirst_of_all_neg
    intro c hc
    rcases hdig c hc with h | h
    · have := isDigit_char_ne h
      simp [this.2.1, this.2.2.1]
    · subst h
      decide
  have hsplitDot :
      splitFirst (fun c => decide (c = '.')) (padNat 1 n ++ '.' :: padNat j f) =
        (padNat 1 n, some (padNat j f)) := by
    apply splitFirst_found
    · intro x hx
      have := isDigit_char_ne (padNat_digits x hx)
      simp [this.1]
    · decide
  rw [parseUnsigned]
  simp only [hsplitE]
  rw [parseMantissa]
  simp only [hsplitDot]
  rw [if_neg (by simpa using padNat_ne_nil hj)]
  rw [if_neg (by simpa using padNat_ne_nil (by omega : (0:ℕ) < 1))]
  rw [parseNatList_padNat (by omega : (0:ℕ) < 1), parseNatList_padNat hj]
  rw [padNat_length hf]

theorem parseDecChars_pos {cs : List Char} {v : ℚ} {d : Char} {rest : List Char}
    (hcs : cs = d :: rest) (hd : d.isDigit = true)
    (hv : parseUnsigned cs = some v) :
    parseDecChars cs = some v := by
  subst hcs
  have hne := isDigit_char_ne hd
  rw [parseDecChars]
  rw [if_neg hne.2.2.2.1, if_neg hne.2.2.2.2]
  exact hv

theorem parseDecChars_neg {cs : List Char} {v : ℚ}
    (hv : parseUnsigned cs = some v) :
    parseDecChars ('-' :: cs) = some (-v) := by
  rw [parseDecChars]
  rw [if_pos rfl, hv]
  rfl

theorem padNat_one_exists_cons (n : ℕ) :
    ∃ d rest, padNat 1 n = d :: rest ∧ d.isDigit = true := by
  cases h : padNat 1 n with
  | nil => exact absurd h (padNat_ne_nil (by omega))
  | cons d rest =>
    refine ⟨d, rest, rfl, ?_⟩
    exact padNat_digits d (by rw [h]; simp)

theorem int_cast_m_eq {q : ℚ} {k : ℕ} (hk : q.den ∣ 10 ^ k) :
    ((q.num * (((10 ^ k : ℕ) / q.den : ℕ) : ℤ) : ℤ) : ℚ) = q * 10 ^ k := by
  have hden : (q.den : ℚ) ≠ 0 := by
    exact_mod_cast q.den_nz
  have h1 : (((10 ^ k / q.den : ℕ) : ℕ) : ℚ) = (10 : ℚ) ^ k / (q.den : ℚ) := by
    rw [Nat.cast_div hk hden]
    norm_num
  rw [Int.cast_mul, Int.cast_natCast, h1]
  rw [show (q.num : ℚ) * ((10 : ℚ) ^ k / (q.den : ℚ)) =
        ((q.num : ℚ) / (q.den : ℚ)) * 10 ^ k from by ring]
  rw [Rat.num_div_den]

theorem parseDecChars_signed {cs : List Char} {w : ℚ} {b : Bool}
    (hd : ∃ d rest, cs = d :: rest ∧ d.isDigit = true)
    (hv : parseUnsigned cs = some w) :
    parseDecChars ((if b = true then ['-'] else []) ++ cs) =
      some (if b = true then -w else w) := by
  obtain ⟨d, rest, hcons, hdig⟩ := hd
  cases b with
  | false =>
    rw [if_neg (by simp), List.nil_append, if_neg (by simp)]
    exact parseDecChars_pos hcons hdig hv
  | true =>
    rw [if_pos rfl, if_pos rfl]
    show parseDecChars ('-' :: cs) = some (-w)
    exact parseDecChars_neg hv

theorem parseDecChars_renderAmountAt {q : ℚ} {k : ℕ} (hk : q.den ∣ 10 ^ k) :
    parseDecChars (renderAmountAt (q.num * (((10 ^ k : ℕ) / q.den : ℕ) : ℤ)) k) = some q := by
  set m : ℤ := q.num * (((10 ^ k : ℕ) / q.den : ℕ) : ℤ) with hmdef
  have hm : (m : ℚ) = q * 10 ^ k := int_cast_m_eq hk
  have hten : (0:ℚ) < 10 ^ k := by positivity
  have hq : ((m.natAbs : ℕ) : ℚ) / 10 ^ k = |q| := by
    have h1 : ((m.natAbs : ℕ) : ℚ) = |(m : ℚ)| := by
      rw [Int.cast_natAbs, Int.cast_abs]
    rw [h1, hm, abs_mul, abs_of_pos hten]
    rw [mul_div_assoc, div_self (ne_of_gt hten), mul_one]
  have habs_neg : m < 0 → |q| = -q := by
    intro hneg
    have h2 : (m : ℚ) < 0 := by exact_mod_cast hneg
    rw [hm] at h2
    have h3 : q < 0 := by nlinarith
    rw [abs_of_neg h3]
  have habs_pos : 0 ≤ m → |q| = q := by
    intro hpos
    have h2 : (0:ℚ) ≤ (m : ℚ) := by exact_mod_cast hpos
    rw [hm] at h2
    have h3 : 0 ≤ q := by nlinarith
    exact abs_of_nonneg h3
  have hb : ∀ cs : List Char, (if m < 0 then ['-'] else []) ++ cs =
      (if (decide (m < 0)) = true then ['-'] else []) ++ cs := by
    intro cs
    rcases lt_or_ge m 0 with hneg | hpos
    · rw [if_pos hneg, if_pos (by simpa using hneg)]
    · rw [if_neg (by omega), if_neg (by simp; omega)]
  rcases Nat.eq_zero_or_pos k with hk0 | hkpos
  · -- scale 0: the denominator is 1 and the render is "<int>.0"
    subst hk0
    have hv : parseUnsigned (padNat 1 m.natAbs ++ '.' :: padNat 1 0) =
        some ((m.natAbs : ℚ) + ((0 : ℕ) : ℚ) / 10 ^ 1) :=
      parseUnsigned_ipfp (by omega) (by omega)
    have hval : ((m.natAbs : ℚ) + ((0 : ℕ) : ℚ) / 10 ^ 1) = |q| := by
      have h4 := hq
      rw [pow_zero, div_one] at h4
      rw [← h4]
      norm_num
    rw [renderAmountAt, if_pos rfl, hb, List.append_assoc]
    obtain ⟨d, rest, hcons, hdig⟩ := padNat_one_exists_cons m.natAbs
    have hstep := parseDecChars_signed (b := decide (m < 0))
      ⟨d, rest ++ '.' :: padNat 1 0, by rw [hcons]; rfl, hdig⟩ hv
    rw [hstep, hval]
    rcases lt_or_ge m 0 with hneg | hpos
    · rw [if_pos (by simpa using hneg), habs_neg hneg, neg_neg]
    · rw [if_neg (by simp; omega), habs_pos (by omega)]
  · -- positive scale: the render is "<int>.<k digits>"
    have hmod : m.natAbs % 10 ^ k < 10 ^ k := Nat.mod_lt _ (by positivity)
    have hv : parseUnsigned (padNat 1 (m.natAbs / 10 ^ k) ++ '.' :: padNat k (m.natAbs % 10 ^ k)) =
        some (((m.natAbs / 10 ^ k : ℕ) : ℚ) + ((m.natAbs % 10 ^ k : ℕ) : ℚ) / 10 ^ k) :=
      parseUnsigned_ipfp hkpos hmod
    have hval : (((m.natAbs / 10 ^ k : ℕ) : ℚ) + ((m.natAbs % 10 ^ k : ℕ) : ℚ) / 10 ^ k) = |q| := by
      rw [← hq, eq_div_iff (ne_of_gt hten), add_mul, div_mul_cancel₀ _ (ne_of_gt hten)]
      norm_cast
      rw [Nat.mul_comm (m.natAbs / 10 ^ k) (10 ^ k)]
      exact Nat.div_add_mod _ _
    rw [renderAmountAt, if_neg (by omega), hb, List.append_assoc]
    obtain ⟨d, rest, hcons, hdig⟩ := padNat_one_exists_cons (m.natAbs / 10 ^ k)
    have hstep := parseDecChars_signed (b := decide (m < 0))
      ⟨d, rest ++ '.' :: padNat k (m.natAbs % 10 ^ k), by rw [hcons]; rfl, hdig⟩ hv
    rw [hstep, hval]
    rcases lt_or_ge m 0 with hneg | hpos
    · rw [if_pos (by simpa using hneg), habs_neg hneg, neg_neg]
    · rw [if_neg (by simp; omega), habs_pos (by omega)]


theorem dvd_ten_pow_small {d K : ℕ} (h : d ∣ 10 ^ K) : ∃ k ≤ d, d ∣ 10 ^ k := by
  have h10 : (10:ℕ) ^ K = 2 ^ K * 5 ^ K := by
    rw [← Nat.mul_pow]
  rw [h10] at h
  obtain ⟨x, y, hx, hy, hxy⟩ := Nat.dvd_mul.mp h
  obtain ⟨i, hiK, hxe⟩ := (Nat.dvd_prime_pow Nat.prime_two).mp hx
  obtain ⟨j, hjK, hye⟩ := (Nat.dvd_prime_pow (by norm_num : Nat.Prime 5)).mp hy
  subst hxe hye
  refine ⟨max i j, ?_, ?_⟩
  · have hi : i < 2 ^ i := Nat.lt_two_pow i
    have hj : j < 2 ^ j := Nat.lt_two_pow j
    have h2 : 2 ^ i ≤ 2 ^ i * 5 ^ j := Nat.le_mul_of_pos_right _ (by positivity)
    have h5 : 5 ^ j ≤ 2 ^ i * 5 ^ j := Nat.le_mul_of_pos_left _ (by positivity)
    have hj5 : 2 ^ j ≤ 5 ^ j := Nat.pow_le_pow_left (by omega) j
    omega
  · rw [← hxy, show (10:ℕ) ^ max i j = 2 ^ max i j * 5 ^ max i j from by rw [← Nat.mul_pow]]
    exact Nat.mul_dvd_mul (Nat.pow_dvd_pow 2 (Nat.le_max_left i j))
      (Nat.pow_dvd_pow 5 (Nat.le_max_right i j))

theorem renderAmount_eq {q : ℚ} (h : ∃ K, q.den ∣ 10 ^ K) :
    ∃ k, q.den ∣ 10 ^ k ∧
      renderAmount q = renderAmountAt (q.num * (((10 ^ k : ℕ) / q.den : ℕ) : ℤ)) k := by
  obtain ⟨K, hK⟩ := h
  obtain ⟨k0, hk0le, hk0⟩ := dvd_ten_pow_small hK
  have hex : ∃ x, x ∈ List.range (q.den + 1) ∧ (fun k => decide (q.den ∣ 10 ^ k)) x = true :=
    ⟨k0, by simp [List.mem_range]; omega, by simpa⟩
  have hsome : ((List.range (q.den + 1)).find? (fun k => decide (q.den ∣ 10 ^ k))).isSome := by
    rw [List.find?_isSome]
    obtain ⟨x, hx1, hx2⟩ := hex
    exact ⟨x, hx1, hx2⟩
  obtain ⟨k, hk⟩ := Option.isSome_iff_exists.mp hsome
  have hkp : q.den ∣ 10 ^ k := by
    have := List.find?_some hk
    simpa using this
  refine ⟨k, hkp, ?_⟩
  rw [renderAmount, hk]

theorem renderAmountAt_chars {m : ℤ} {k : ℕ} :
    ∀ c ∈ renderAmountAt m k, c = '-' ∨ c = '.' ∨ c.isDigit = true := by
  intro c hc
  have hsign : ∀ x ∈ (if m < 0 then ['-'] else ([] : List Char)), x = '-' := by
    intro x hx
    rcases lt_or_ge m 0 with hm | hm
    · rw [if_pos hm] at hx
      simpa using hx
    · rw [if_neg (by omega)] at hx
      simp at hx
  rw [renderAmountAt] at hc
  rcases Nat.eq_zero_or_pos k with hk | hk
  · rw [if_pos hk] at hc
    rcases List.mem_append.mp hc with h1 | h1
    · rcases List.mem_append.mp h1 with h2 | h2
      · exact Or.inl (hsign c h2)
      · exact Or.inr (Or.inr (padNat_digits c h2))
    · rcases List.mem_cons.mp h1 with h2 | h2
      · exact Or.inr (Or.inl h2)
      · exact Or.inr (Or.inr (padNat_digits c h2))
  · rw [if_neg (by omega)] at hc
    rcases List.mem_append.mp hc with h1 | h1
    · rcases List.mem_append.mp h1 with h2 | h2
      · exact Or.inl (hsign c h2)
      · exact Or.inr (Or.inr (padNat_digits c h2))
    · rcases List.mem_cons.mp h1 with h2 | h2
      · exact Or.inr (Or.inl h2)
      · exact Or.inr (Or.inr (padNat_digits c h2))

theorem renderAmountAt_no_white {m : ℤ} {k : ℕ} :
    ∀ c ∈ renderAmountAt m k, c.isWhitespace = false := by
  intro c hc
  rcases renderAmountAt_chars c hc with h | h | h
  · subst h
    decide
  · subst h
    decide
  · exact isDigit_not_white h

/-- Parsing a rendered amount recovers it exactly, whenever the rational
has a decimal-power denominator (as every Python float does). -/
theorem parseDecimal_renderAmount {q : ℚ} (h : ∃ K, q.den ∣ 10 ^ K) :
    parseDecimal (String.mk (renderAmount q)) = some q := by
  obtain ⟨k, hdvd, heq⟩ := renderAmount_eq h
  rw [parseDecimal]
  rw [show (String.mk (renderAmount q)).data = renderAmount q from rfl]
  rw [heq, trimChars_of_no_white renderAmountAt_no_white]
  exact parseDecChars_renderAmountAt hdvd

/-! ### Calendar dates

`DateVal` models a pandas timestamp at second granularity: a calendar
date plus seconds within the day, so that `.dt.date` truncation (used in
`save_expenses`) is observable.  A plain `datetime.date` has `sec = 0`. -/

structure DateVal where
  year : ℕ
  month : ℕ
  day : ℕ
  sec : ℕ
deriving DecidableEq

/-- `str(datetime.date)`: ISO `YYYY-MM-DD` (what `to_csv` writes after
the save-time truncation). -/
def dateChars (d : DateVal) : List Char :=
  padNat 4 d.year ++ '-' :: (padNat 2 d.month ++ '-' :: padNat 2 d.day)

/-- Time-of-day part `HH:MM:SS` of a timestamp string. -/
def parseTime (cs : List Char) : Option ℕ :=
  let s1 := splitFirst (fun c => c = ':') cs
  match s1.2 with
  | none => none
  | some r1 =>
    let s2 := splitFirst (fun c => c = ':') r1
    match s2.2 with
    | none => none
    | some r2 =>
      match parseNatList s1.1, parseNatList s2.1, parseNatList r2 with
      | some hh, some mi, some se => some (3600 * hh + 60 * mi + se)
      | _, _, _ => none

/-- The ISO fragment of the pandas date parser: `YYYY-MM-DD`, optionally
followed by a space and `HH:MM:SS`.  Calendar-range validation is the
concern of the library (spec: unparsable dates are a caller concern). -/
def parseDateChars (cs : List Char) : Option DateVal :=
  let s1 := splitFirst (fun c => c = '-') cs
  match s1.2 with
  | none => none
  | some r1 =>
    let s2 := splitFirst (fun c => c = '-') r1
    match s2.2 with
    | none => none
    | some r2 =>
      let s3 := splitFirst (fun c => c = ' ') r2
      match parseNatList s1.1, parseNatList s2.1, parseNatList s3.1 with
      | some y, some mo, some dy =>
        match s3.2 with
        | none => some ⟨y, mo, dy, 0⟩
        | some tcs => (parseTime tcs).map (fun t => ⟨y, mo, dy, t⟩)
      | _, _, _ => none

def parseDate (s : String) : Option DateVal := parseDateChars s.data

/-! ### The data model -/

/-- A `Date` cell of the DataFrame: missing (`NaT`), a parsed timestamp,
or — when `parse_dates` could not convert the column — raw text. -/
inductive DateCell
  | missing
  | stamp (d : DateVal)
  | text (s : String)
deriving DecidableEq

/-- One row of the `expenses` DataFrame.  `none` is a missing value
(`NaN`): text cells read from an empty/NA field, and amounts that failed
numeric coercion. -/
structure Record where
  date : DateCell
  category : Option String
  description : Option String
  amount : Option ℚ
deriving DecidableEq

/-- The mutable state of an `ExpenseTracker`: its `expenses` DataFrame
as an ordered list of rows. -/
structure Tracker where
  expenses : List Record
deriving DecidableEq

/-- One data row of the CSV file, at field granularity (the comma/quote
layer of the format transports each field text exactly and is abstracted
away). -/
structure RawRow where
  date : String
  category : String
  description : String
  amount : String
deriving DecidableEq

/-- The default missing-value sentinels of `pandas.read_csv`: a field
equal to one of these reads back as `NaN`. -/
def naValues : List String :=
  ["", "#N/A", "#N/A N/A", "#NA", "-1.#IND", "-1.#QNAN", "-NaN", "-nan",
   "1.#IND", "1.#QNAN", "<NA>", "N/A", "NA", "NULL", "NaN", "None",
   "n/a", "nan", "null"]

/-- Missing-value filtering of a text field by `read_csv`. -/
def naParse (s : String) : Option String :=
  if s ∈ naValues then none else some s

/-- Python `str.strip()`. -/
def pyStrip (s : String) : String := String.mk (trimChars s.data)

/-- Python `str.capitalize()`: first character uppercased, the rest
lowercased. -/
def pyCapitalize (s : String) : String :=
  match s.data with
  | [] => ""
  | c :: rest => String.mk (c.toUpper :: rest.map Char.toLower)

/-! ### Currency formatting

Python format specs `.2f` and `,.2f` round the value to cents
(ties-to-even, as float formatting does) and print sign, integer digits
(with thousands separators for `,`), point, two digits. -/

/-- Cents value of `q`, rounding halves to even. -/
def roundCentsHalfEven (q : ℚ) : ℤ :=
  let n := 100 * q.num
  let d := (q.den : ℤ)
  let z := Int.fdiv n d
  let r := n - d * z
  if 2 * r < d then z
  else if d < 2 * r then z + 1
  else if z % 2 = 0 then z else z + 1

/-- Insert a thousands separator after every third digit of a
little-endian digit list. -/
def commaGroup : List Char → List Char
  | a :: b :: c :: d :: rest => a :: b :: c :: ',' :: commaGroup (d :: rest)
  | l => l

/-- Integer digits with thousands separators. -/
def intThousands (a : ℕ) : List Char := (commaGroup (padNat 1 a).reverse).reverse

/-- Python `"{:.2f}".format(q)`. -/
def format2f (q : ℚ) : String :=
  let c := roundCentsHalfEven q
  String.mk ((if c < 0 then ['-'] else []) ++
    padNat 1 (c.natAbs / 100) ++ '.' :: padNat 2 (c.natAbs % 100))

/-- Python `"{:,.2f}".format(q)`. -/
def formatComma2f (q : ℚ) : String :=
  let c := roundCentsHalfEven q
  String.mk ((if c < 0 then ['-'] else []) ++
    intThousands (c.natAbs / 100) ++ '.' :: padNat 2 (c.natAbs % 100))

/-- `"${:,.2f}".format(q)` — the currency rendering used throughout. -/
def formatCurrency (q : ℚ) : String := "$" ++ formatComma2f q

/-- A formatted amount cell; `"${:,.2f}".format(nan)` prints `$nan`. -/
def formatAmountCell : Option ℚ → String
  | none => "$nan"
  | some q => formatCurrency q

example : formatCurrency 800 = "$800.00" := by decide

example : formatCurrency 1234567 = "$1,234,567.00" := by decide

example : format2f (-5) = "-5.00" := by decide

/-! ### The full `float()` value model

`parseDecimal` above covers the finite decimal literals.  Python
`float(str)` additionally accepts the non-finite literals: optionally
signed, case-insensitive `nan`, `inf` and `infinity`.  `add_expense`
validates with `float()`, and a `nan` result slips through its
`amount <= 0` check (every comparison on `nan` is `False`), so the full
value domain matters there. -/

/-- A `float()` result: a finite rational, `nan`, or an infinity. -/
inductive PyFloat
  | finite (q : ℚ)
  | nan
  | inf
  | ninf
deriving DecidableEq

/-- Case-insensitive unsigned non-finite literal (`nan`, `inf`,
`infinity`). -/
def nonFiniteCore (cs : List Char) : Option PyFloat :=
  let low := cs.map Char.toLower
  if low = ['n', 'a', 'n'] then some PyFloat.nan
  else if low = ['i', 'n', 'f'] ∨ low = ['i', 'n', 'f', 'i', 'n', 'i', 't', 'y'] then
    some PyFloat.inf
  else none

/-- Optionally signed non-finite literal; a sign on `nan` is
immaterial. -/
def nonFiniteLit (cs : List Char) : Option PyFloat :=
  match cs with
  | '-' :: rest =>
    (nonFiniteCore rest).map (fun v =>
      match v with
      | PyFloat.inf => PyFloat.ninf
      | w => w)
  | '+' :: rest => nonFiniteCore rest
  | _ => nonFiniteCore cs

/-- Python `float(str)` in full: strip surrounding whitespace, then a
finite decimal literal or a non-finite literal (the two sets of inputs
are disjoint); `none` is the `ValueError`. -/
def pyFloat (s : String) : Option PyFloat :=
  let cs := trimChars s.data
  match parseDecChars cs with
  | some q => some (PyFloat.finite q)
  | none => nonFiniteLit cs

/-- The Python comparison `v <= 0`: `False` for `nan` and `inf`,
`True` for `-inf`. -/
def pyNonpos : PyFloat → Bool
  | PyFloat.finite q => decide (q ≤ 0)
  | PyFloat.nan => false
  | PyFloat.inf => false
  | PyFloat.ninf => true

/-- The DataFrame cell holding a `float()` result.  A `nan` amount is
exactly a pandas missing value (skipped by sums, displayed `$nan`,
written as an empty field), so it is `none` like every other `NaN`
cell.  An infinite amount has no rational cell; it is collapsed to a
missing cell here — the states built from `inf`-family inputs (which no
claim touches) are the one place the cell model is coarser than the
program. -/
def pyFloatCell : PyFloat → Option ℚ
  | PyFloat.finite q => some q
  | _ => none

/-- `"{:.2f}".format` of a `float()` result (`nan`, `inf`, `-inf`
format as themselves). -/
def pyFloat2f : PyFloat → String
  | PyFloat.finite q => format2f q
  | PyFloat.nan => "nan"
  | PyFloat.inf => "inf"
  | PyFloat.ninf => "-inf"

example : pyFloat "nan" = some PyFloat.nan := by decide

example : pyFloat " -NaN " = some PyFloat.nan := by decide

example : pyFloat "Infinity" = some PyFloat.inf := by decide

example : pyFloat "-inf" = some PyFloat.ninf := by decide

example : pyFloat "abc" = none := by decide

/-! ### The `ExpenseTracker` operations (src/code.py) -/

namespace ExpenseTracker

/-- What `__init__` finds at `self.filename` on the non-raising paths:
no file, an empty file (`pd.errors.EmptyDataError`), an
unreadable/unparsable file (any other exception inside `read_csv`), or
a parsed table of data rows carrying all four columns.  The remaining
case — a file that parses but lacks an `Amount` column, on which
construction raises — is `LoadInput.tableNoAmount` below. -/
inductive FileData
  | missing
  | emptyFile
  | malformed
  | table (rows : List RawRow)

/-- `parse_dates=[Date]` converts the column only if every present cell
parses; otherwise the column keeps its text values. -/
def dateColumnOK (rows : List RawRow) : Bool :=
  rows.all (fun r =>
    match naParse r.date with
    | none => true
    | some s => (parseDate s).isSome)

/-- One `Date` cell after `read_csv(..., parse_dates=[Date])`. -/
def loadDateCell (colOK : Bool) (cell : Option String) : DateCell :=
  match cell with
  | none => DateCell.missing
  | some s =>
    if colOK then
      match parseDate s with
      | some d => DateCell.stamp d
      | none => DateCell.text s
    else DateCell.text s

/-- One record out of a CSV data row: NA filtering on every field,
date parsing on `Date`, and `pd.to_numeric(errors=coerce)` on
`Amount` (line 35 of the source). -/
def loadRow (colOK : Bool) (r : RawRow) : Record :=
  { date := loadDateCell colOK (naParse r.date)
    category := naParse r.category
    description := naParse r.description
    amount := (naParse r.amount).bind parseDecimal }

/-- `__init__` (lines 11–35) on the non-raising inputs: every
`FileData` branch produces a tracker, falling back to the empty ledger
on a missing, empty, or unparsable file.  (Interpolated details of the
printed messages are elided.) -/
def init (fd : FileData) : Tracker × String :=
  match fd with
  | FileData.missing => (⟨[]⟩, "No existing expense file found. Starting a new ledger.")
  | FileData.emptyFile => (⟨[]⟩, "CSV file is empty. Starting with a new ledger.")
  | FileData.malformed => (⟨[]⟩, "Error loading CSV. Starting with a new ledger.")
  | FileData.table rows =>
    (⟨rows.map (loadRow (dateColumnOK rows))⟩, "Loaded existing expense records.")

/-- Everything `__init__` can be given: a `FileData` it handles, or an
existing CSV that `read_csv` parses but whose header lacks an `Amount`
column (e.g. a file `Date,Category` plus rows), regardless of its row
content. -/
inductive LoadInput
  | ok (fd : FileData)
  | tableNoAmount

/-- `__init__` over its whole input domain.  Line 35
`self.expenses[Amount] = pd.to_numeric(self.expenses[Amount], ...)`
sits *outside* the `try/except`: on a parsable table without an
`Amount` column it raises an uncaught `KeyError`, and no tracker is
constructed — `none` models the escaping exception.  (A missing `Date`
column, by contrast, makes `read_csv(parse_dates=[Date])` itself raise
inside the `try`, which is `FileData.malformed`.) -/
def initChecked : LoadInput → Option (Tracker × String)
  | LoadInput.ok fd => some (init fd)
  | LoadInput.tableNoAmount => none

/-- `add_expense` (lines 38–64).  `today` is `datetime.now().date()`.
`float(amount)` is the full `pyFloat`: it may fail (`ValueError` →
invalid-amount message), and the value is then rejected when
`amount <= 0` — which is `False` for `nan` and `inf`, so those append a
record with the success confirmation; otherwise the new record is
appended at the end via `pd.concat`.  (Emoji/newline decoration of the
printed messages is elided, as is the interpolated confirmation
echo.) -/
def add_expense (t : Tracker) (today : DateVal) (category description amount : String) :
    Tracker × String :=
  match pyFloat amount with
  | none => (t, "Invalid amount entered. Please enter a valid number.")
  | some v =>
    if pyNonpos v then (t, "Amount must be positive.")
    else
      ({ expenses := t.expenses ++ [{
            date := DateCell.stamp ⟨today.year, today.month, today.day, 0⟩
            category := some (pyCapitalize (pyStrip category))
            description := some (pyStrip description)
            amount := pyFloatCell v }] },
        "Added expense: " ++ category ++ " - " ++ description ++ " ($" ++ pyFloat2f v ++ ")")

/-- The categories present in the ledger (groupby keys; rows with a
missing category are dropped by `groupby`, whose default is
`dropna=True`). -/
def presentCategories (rs : List Record) : List String :=
  rs.filterMap (fun r => r.category)

/-- Distinct categories in first-seen order.  (pandas `groupby` sorts
its keys, but the subsequent value sort makes the key order observable
only between equal totals, a tie order the program does not fix:
`sort_values` uses an unstable quicksort.) -/
def uniqueKeys : List String → List String
  | [] => []
  | k :: rest => k :: (uniqueKeys rest).filter (fun x => x ≠ k)

/-- Sum of the amounts of one category group; missing amounts are
skipped, exactly as pandas `sum` skips `NaN`. -/
def groupSum (rs : List Record) (k : String) : ℚ :=
  ((rs.filter (fun r => r.category = some k)).filterMap (fun r => r.amount)).sum

/-- Insertion into a list sorted by descending total. -/
def insertDesc (p : String × ℚ) : List (String × ℚ) → List (String × ℚ)
  | [] => [p]
  | x :: rest => if x.2 < p.2 then p :: x :: rest else x :: insertDesc p rest

/-- Sort (category, total) pairs by descending total
(`sort_values(ascending=False)`). -/
def sortDesc : List (String × ℚ) → List (String × ℚ)
  | [] => []
  | x :: rest => insertDesc x (sortDesc rest)

/-- `groupby(Category)[Amount].sum().sort_values(ascending=False)` —
the numeric per-category totals, descending (line 76 and line 127). -/
def categoryTotals (rs : List Record) : List (String × ℚ) :=
  sortDesc ((uniqueKeys (presentCategories rs)).map (fun k => (k, groupSum rs k)))

/-- `self.expenses[Amount].sum()` — the grand total, `NaN` skipped. -/
def grandTotal (rs : List Record) : ℚ := (rs.filterMap (fun r => r.amount)).sum

/-- `summarize_by_category` (lines 67–86).  On an empty ledger: message
and `None`.  Otherwise the summary DataFrame is built and its `Amount`
column is overwritten with currency-formatted strings *before being
returned* (line 77); the grand-total line is the printed total. -/
def summarize_by_category (t : Tracker) :
    Tracker × Option (List (String × String)) × String :=
  if t.expenses.isEmpty then
    (t, none, "No expenses recorded yet to summarize.")
  else
    (t, some ((categoryTotals t.expenses).map (fun p => (p.1, formatCurrency p.2))),
      "TOTAL SPENT: " ++ formatCurrency (grandTotal t.expenses))

/-- `view_all_expenses` (lines 89–102).  The method formats a *copy*
(`df_display`) of the DataFrame, so the state is returned unchanged; the
display is every record in order with its amount rendered as currency
text. -/
def view_all_expenses (t : Tracker) :
    Tracker × Option (List (Record × String)) × String :=
  if t.expenses.isEmpty then (t, none, "No expenses recorded yet.")
  else
    (t, some (t.expenses.map (fun r => (r, formatAmountCell r.amount))),
      "All Recorded Expenses")

/-- `.dt.date` truncation of one timestamp. -/
def truncStamp (d : DateVal) : DateVal := ⟨d.year, d.month, d.day, 0⟩

/-- `pd.to_datetime(cell).dt.date`: `NaT` stays `NaT`, a timestamp is
truncated, a text date must parse (else `to_datetime` raises, which the
`except` catches). -/
def normalizeDateCell : DateCell → Option DateCell
  | DateCell.missing => some DateCell.missing
  | DateCell.stamp d => some (DateCell.stamp (truncStamp d))
  | DateCell.text s => (parseDate s).map (fun d => DateCell.stamp (truncStamp d))

/-- One record with its date normalized to calendar granularity. -/
def truncRecord (r : Record) : Option Record :=
  (normalizeDateCell r.date).map (fun dc => { r with date := dc })

/-- `self.expenses[Date] = pd.to_datetime(self.expenses[Date]).dt.date`
(line 111), an in-place mutation of the DataFrame: all-or-nothing at
column granularity. -/
def normalizeDates : List Record → Option (List Record)
  | [] => some []
  | r :: rest =>
    match truncRecord r, normalizeDates rest with
    | some r2, some rs => some (r2 :: rs)
    | _, _ => none

/-- `to_csv(index=False)` of one record: missing cells become empty
fields, dates are ISO text, floats are `repr`-rendered. -/
def rawOfRecord (r : Record) : RawRow :=
  { date :=
      match r.date with
      | DateCell.missing => ""
      | DateCell.stamp d => String.mk (dateChars d)
      | DateCell.text s => s
    category := r.category.getD ""
    description := r.description.getD ""
    amount :=
      match r.amount with
      | none => ""
      | some q => String.mk (renderAmount q) }

/-- `save_expenses` (lines 105–115).  The date normalization happens
in-place *before* `to_csv`; `ioOk` tells whether `to_csv` succeeds (the
method catches every exception and only prints).  Returns the new state,
the file content written (if any), and the message. -/
def save_expenses (t : Tracker) (ioOk : Bool) :
    Tracker × Option (List RawRow) × String :=
  match normalizeDates t.expenses with
  | none => (t, none, "Failed to save data.")
  | some es =>
    if ioOk then
      (⟨es⟩, some (es.map rawOfRecord), "All expense data saved successfully.")
    else (⟨es⟩, none, "Failed to save data.")

/-- `visualize_expenses` (lines 118–131): empty ledger → first message;
empty grouped summary → "Summary calculation failed"; otherwise the
(category → total) data handed to the bar chart. -/
def visualize_expenses (t : Tracker) :
    Tracker × Option (List (String × ℚ)) × String :=
  if t.expenses.isEmpty then (t, none, "Cannot visualize. No expenses recorded yet.")
  else
    if (categoryTotals t.expenses).isEmpty then
      (t, none, "Cannot visualize. Summary calculation failed.")
    else
      (t, some (categoryTotals t.expenses),
        "Displaying bar chart visualization. Close the window to continue.")

end ExpenseTracker

/-! ### Concrete fixtures used by the claims -/

/-- A calendar date used in concrete checks. -/
def exDate : DateVal := ⟨2024, 1, 1, 0⟩

def exFood1 : Record := ⟨DateCell.stamp exDate, some "Food", some "Lunch", some 10⟩

def exFood2 : Record := ⟨DateCell.stamp exDate, some "Food", some "Snack", some 5⟩

def exRent : Record := ⟨DateCell.stamp exDate, some "Rent", some "Flat", some 800⟩

/-- The ledger of the spec example: [("Food",10), ("Food",5), ("Rent",800)]. -/
def exLedger : Tracker := ⟨[exFood1, exFood2, exRent]⟩

theorem exLedger_totals :
    ExpenseTracker.categoryTotals exLedger.expenses = [("Rent", 800), ("Food", 15)] := by
  norm_num +decide [exLedger, exFood1, exFood2, exRent, exDate, ExpenseTracker.categoryTotals,
    ExpenseTracker.uniqueKeys, ExpenseTracker.presentCategories, ExpenseTracker.groupSum,
    ExpenseTracker.sortDesc, ExpenseTracker.insertDesc, List.filterMap_cons, List.filterMap_nil,
    List.sum_cons, List.sum_nil]

theorem exLedger_grand : ExpenseTracker.grandTotal exLedger.expenses = 815 := by
  norm_num +decide [exLedger, exFood1, exFood2, exRent, ExpenseTracker.grandTotal,
    List.filterMap_cons, List.filterMap_nil, List.sum_cons, List.sum_nil]

/-! ### Properties of the grouping and sorting pipeline -/

namespace ExpenseTracker

theorem mem_insertDesc {p x : String × ℚ} {l : List (String × ℚ)} :
    x ∈ insertDesc p l ↔ x = p ∨ x ∈ l := by
  induction l with
  | nil => simp [insertDesc]
  | cons y rest ih =>
    rw [insertDesc]
    by_cases h : y.2 < p.2
    · rw [if_pos h]
      simp [List.mem_cons]
    · rw [if_neg h]
      simp [List.mem_cons, ih]
      tauto

theorem pairwise_insertDesc {p : String × ℚ} {l : List (String × ℚ)}
    (hl : List.Pairwise (fun a b => b.2 ≤ a.2) l) :
    List.Pairwise (fun a b => b.2 ≤ a.2) (insertDesc p l) := by
  induction l with
  | nil => simp [insertDesc]
  | cons y rest ih =>
    rw [List.pairwise_cons] at hl
    rw [insertDesc]
    by_cases h : y.2 < p.2
    · rw [if_pos h]
      rw [List.pairwise_cons]
      refine ⟨?_, List.Pairwise.cons hl.1 hl.2⟩
      intro z hz
      rcases List.mem_cons.mp hz with h1 | h1
      · subst h1
        exact le_of_lt h
      · exact le_trans (hl.1 z h1) (le_of_lt h)
    · rw [if_neg h]
      rw [List.pairwise_cons]
      refine ⟨?_, ih hl.2⟩
      intro z hz
      rcases mem_insertDesc.mp hz with h1 | h1
      · subst h1
        exact not_lt.mp h
      · exact hl.1 z h1

theorem pairwise_sortDesc {l : List (String × ℚ)} :
    List.Pairwise (fun a b => b.2 ≤ a.2) (sortDesc l) := by
  induction l with
  | nil => simp [sortDesc]
  | cons y rest ih => exact pairwise_insertDesc ih

theorem mem_sortDesc {x : String × ℚ} {l : List (String × ℚ)} :
    x ∈ sortDesc l ↔ x ∈ l := by
  induction l with
  | nil => simp [sortDesc]
  | cons y rest ih =>
    rw [sortDesc, mem_insertDesc, ih]
    simp [List.mem_cons]

theorem mem_uniqueKeys {x : String} {l : List String} :
    x ∈ uniqueKeys l ↔ x ∈ l := by
  induction l with
  | nil => simp [uniqueKeys]
  | cons k rest ih =>
    rw [uniqueKeys]
    by_cases h : x = k
    · subst h
      simp
    · simp [List.mem_cons, List.mem_filter, ih, h]

theorem mem_categoryTotals {rs : List Record} {k : String} {v : ℚ} :
    (k, v) ∈ categoryTotals rs ↔ k ∈ presentCategories rs ∧ v = groupSum rs k := by
  rw [categoryTotals, mem_sortDesc]
  constructor
  · intro h
    obtain ⟨a, ha, heq⟩ := List.mem_map.mp h
    have h1 : a = k := congrArg Prod.fst heq
    have h2 : groupSum rs a = v := congrArg Prod.snd heq
    subst h1
    exact ⟨mem_uniqueKeys.mp ha, h2.symm⟩
  · intro h
    obtain ⟨h1, h2⟩ := h
    subst h2
    exact List.mem_map.mpr ⟨k, mem_uniqueKeys.mpr h1, rfl⟩

theorem sortDesc_ne_nil {l : List (String × ℚ)} (h : l ≠ []) : sortDesc l ≠ [] := by
  cases l with
  | nil => exact absurd rfl h
  | cons y rest =>
    intro hcon
    have := mem_sortDesc.mpr (List.mem_cons_self y rest)
    rw [hcon] at this
    simp at this

end ExpenseTracker

/-! ### The claims -/

/-- C1: for every category string, description string, and amount input
that parses as a decimal number strictly greater than 0, `add_expense`
appends exactly one new record at the end of the record sequence — date
the current calendar date, category the trimmed-then-capitalized input,
description the trimmed input, amount the parsed value — and never
reorders or alters the existing records (they form the unchanged prefix). -/
theorem claim_C1_add_appends (t : Tracker) (today : DateVal) (c d s : String) (q : ℚ)
    (hpar : parseDecimal s = some q) (hq : 0 < q) :
    (ExpenseTracker.add_expense t today c d s).1.expenses =
      t.expenses ++
        [{ date := DateCell.stamp ⟨today.year, today.month, today.day, 0⟩,
           category := some (pyCapitalize (pyStrip c)),
           description := some (pyStrip d),
           amount := some q }] := by
  have hpy : pyFloat s = some (PyFloat.finite q) := by
    simp only [pyFloat]
    rw [show parseDecChars (trimChars s.data) = some q from hpar]
  simp [ExpenseTracker.add_expense, hpy, pyNonpos, pyFloatCell, not_le.mpr hq]

theorem claim_C1_witness :
    parseDecimal "12" = some 12 ∧ (0:ℚ) < 12 ∧
    (ExpenseTracker.add_expense ⟨[exFood1]⟩ exDate " food " " tea " "12").1.expenses =
      [exFood1] ++
        [⟨DateCell.stamp ⟨2024, 1, 1, 0⟩, some "Food", some "tea", some 12⟩] := by
  refine ⟨by decide, by decide, ?_⟩
  rw [claim_C1_add_appends ⟨[exFood1]⟩ exDate " food " " tea " "12" 12 (by decide) (by decide)]
  decide

/-- C2: the claim is right and the code is wrong at the amount input
`"nan"`.  That input is non-numeric in the claim's (and spec's) sense,
yet `float("nan")` raises no `ValueError` and `nan <= 0` is `False`,
so `add_expense` appends a record with a `NaN` amount and prints the
success confirmation: no rejection, no failure message, and the record
sequence grows.  This theorem evaluates the code at the failing input.
(The spec's own invariant — amount > 0 "enforced at insertion;
non-positive or non-numeric input is rejected and the record is not
created" — and its §8 property that a non-numeric amount leaves the
record count unchanged are both violated there; `"inf"`-family inputs
bypass the positivity check the same way.) -/
theorem claim_C2_nan_appended :
    pyFloat "nan" = some PyFloat.nan ∧
    (ExpenseTracker.add_expense ⟨[]⟩ exDate "Misc" "oops" "nan").1.expenses =
      [⟨DateCell.stamp ⟨2024, 1, 1, 0⟩, some "Misc", some "oops", none⟩] ∧
    (ExpenseTracker.add_expense ⟨[]⟩ exDate "Misc" "oops" "nan").2 =
      "Added expense: Misc - oops ($nan)" := by
  exact ⟨by decide, by decide, by decide⟩

/-- C4: `summarize_by_category` on an empty ledger signals "nothing to
summarize" and produces no aggregate result; on any ledger the grouped
summary pairs each present category with the sum of the non-missing
amounts of its group and is ordered by descending total; on the records
[("Food",10), ("Food",5), ("Rent",800)] it yields
[("Rent",800), ("Food",15)] with grand total 815. -/
theorem claim_C4_summarize :
    (∀ t : Tracker, t.expenses = [] →
      (ExpenseTracker.summarize_by_category t).2.1 = none ∧
      (ExpenseTracker.summarize_by_category t).2.2 = "No expenses recorded yet to summarize.") ∧
    (∀ rs : List Record,
      List.Pairwise (fun a b => b.2 ≤ a.2) (ExpenseTracker.categoryTotals rs)) ∧
    (∀ (rs : List Record) (k : String) (v : ℚ),
      (k, v) ∈ ExpenseTracker.categoryTotals rs ↔
        k ∈ ExpenseTracker.presentCategories rs ∧ v = ExpenseTracker.groupSum rs k) ∧
    ExpenseTracker.categoryTotals exLedger.expenses = [("Rent", 800), ("Food", 15)] ∧
    ExpenseTracker.grandTotal exLedger.expenses = 815 ∧
    (ExpenseTracker.summarize_by_category exLedger).2.1 =
      some [("Rent", "$800.00"), ("Food", "$15.00")] ∧
    (ExpenseTracker.summarize_by_category exLedger).2.2 = "TOTAL SPENT: $815.00" := by
  refine ⟨?_, ?_, ?_, exLedger_totals, exLedger_grand, ?_, ?_⟩
  · intro t ht
    constructor <;> simp [ExpenseTracker.summarize_by_category, ht]
  · intro rs
    exact ExpenseTracker.pairwise_sortDesc
  · intro rs k v
    exact ExpenseTracker.mem_categoryTotals
  · rw [show (ExpenseTracker.summarize_by_category exLedger).2.1 =
        some ((ExpenseTracker.categoryTotals exLedger.expenses).map
          (fun p => (p.1, formatCurrency p.2))) from by
      simp [ExpenseTracker.summarize_by_category, exLedger, exFood1]]
    rw [exLedger_totals]
    decide
  · rw [show (ExpenseTracker.summarize_by_category exLedger).2.2 =
        "TOTAL SPENT: " ++ formatCurrency (ExpenseTracker.grandTotal exLedger.expenses) from by
      simp [ExpenseTracker.summarize_by_category, exLedger, exFood1]]
    rw [exLedger_grand]
    decide

theorem claim_C4_witness :
    (ExpenseTracker.summarize_by_category ⟨[]⟩).2.1 = none ∧
    List.Pairwise (fun a b => b.2 ≤ a.2)
      (ExpenseTracker.categoryTotals exLedger.expenses) :=
  ⟨(claim_C4_summarize.1 ⟨[]⟩ rfl).1, claim_C4_summarize.2.1 exLedger.expenses⟩

/-- C7 as stated is false: construction CAN raise.  For an existing CSV
that `read_csv` parses but whose header lacks an `Amount` column, line
35 `self.expenses[Amount] = pd.to_numeric(...)` — which sits outside
the `try/except` — raises an uncaught `KeyError` out of `__init__`:
`initChecked` yields no tracker on that input. -/
theorem claim_C7_counterexample :
    ExpenseTracker.initChecked ExpenseTracker.LoadInput.tableNoAmount = none := rfl

/-- C7 (amended): construction never raises for a missing path (empty
ledger, non-fatal report), an empty file (logged, empty ledger), any
`read_csv` parse failure (logged, empty ledger), or a parsable table
carrying an `Amount` column; only a parsable table lacking the `Amount`
column escapes construction, with an uncaught `KeyError` from line 35. -/
theorem claim_C7_init_no_raise :
    (∀ fd : ExpenseTracker.FileData,
      (ExpenseTracker.initChecked (ExpenseTracker.LoadInput.ok fd)).isSome = true) ∧
    ExpenseTracker.init ExpenseTracker.FileData.missing =
      (⟨[]⟩, "No existing expense file found. Starting a new ledger.") ∧
    ExpenseTracker.init ExpenseTracker.FileData.emptyFile =
      (⟨[]⟩, "CSV file is empty. Starting with a new ledger.") ∧
    ExpenseTracker.init ExpenseTracker.FileData.malformed =
      (⟨[]⟩, "Error loading CSV. Starting with a new ledger.") :=
  ⟨fun _ => rfl, rfl, rfl, rfl⟩

/-- C8: loading an existing parsable table keeps every row — the record
count equals the row count — and the amount of each record is exactly
the numeric coercion of its field: a missing or non-numeric field
becomes `NaN` (`none`) while the row itself is retained; concretely a
row with amount "abc" loads with its date, category and description
intact and amount `none`. -/
theorem claim_C8_amount_coercion :
    (∀ rows : List RawRow,
      (ExpenseTracker.init (ExpenseTracker.FileData.table rows)).1.expenses.length =
        rows.length ∧
      (ExpenseTracker.init (ExpenseTracker.FileData.table rows)).1.expenses.map
          (fun r => r.amount) =
        rows.map (fun w => (naParse w.amount).bind parseDecimal)) ∧
    (ExpenseTracker.init
        (ExpenseTracker.FileData.table [⟨"2024-01-01", "Food", "x", "abc"⟩])).1.expenses =
      [⟨DateCell.stamp ⟨2024, 1, 1, 0⟩, some "Food", some "x", none⟩] := by
  refine ⟨fun rows => ⟨by simp [ExpenseTracker.init], ?_⟩, by decide⟩
  simp only [ExpenseTracker.init, List.map_map]
  rfl

/-- C9: `view_all_expenses` never mutates the record sequence (the
state comes back unchanged, so repeated calls agree), and on a non-empty
ledger it produces every record in insertion order with the amount
rendered as currency text. -/
theorem claim_C9_view_readonly (t : Tracker) :
    (ExpenseTracker.view_all_expenses t).1 = t ∧
    (ExpenseTracker.view_all_expenses ((ExpenseTracker.view_all_expenses t).1)).2 =
      (ExpenseTracker.view_all_expenses t).2 ∧
    (t.expenses ≠ [] →
      (ExpenseTracker.view_all_expenses t).2.1 =
        some (t.expenses.map (fun r => (r, formatAmountCell r.amount)))) := by
  have h1 : (ExpenseTracker.view_all_expenses t).1 = t := by
    by_cases h : t.expenses.isEmpty <;> simp [ExpenseTracker.view_all_expenses, h]
  refine ⟨h1, by rw [h1], ?_⟩
  intro hne
  cases hEmpty : t.expenses.isEmpty with
  | true =>
    exact absurd (by simpa using hEmpty) hne
  | false =>
    simp [ExpenseTracker.view_all_expenses, hEmpty]

theorem claim_C9_witness :
    (ExpenseTracker.view_all_expenses exLedger).1 = exLedger ∧
    (ExpenseTracker.view_all_expenses exLedger).2.1 =
      some [(exFood1, "$10.00"), (exFood2, "$5.00"), (exRent, "$800.00")] := by
  refine ⟨(claim_C9_view_readonly exLedger).1, ?_⟩
  rw [(claim_C9_view_readonly exLedger).2.2 (by decide)]
  decide

/-- C10 as stated is false: a non-empty ledger whose only record has a
missing category (reachable by loading a CSV row with an empty Category
field) has an empty grouped sum — `groupby` drops missing keys — so
`visualize_expenses` takes the "Summary calculation failed" branch. -/
theorem claim_C10_counterexample :
    ((⟨[⟨DateCell.missing, none, some "x", some 5⟩]⟩ : Tracker).expenses ≠ []) ∧
    (ExpenseTracker.visualize_expenses
        ⟨[⟨DateCell.missing, none, some "x", some 5⟩]⟩).2.1 = none ∧
    (ExpenseTracker.visualize_expenses
        ⟨[⟨DateCell.missing, none, some "x", some 5⟩]⟩).2.2 =
      "Cannot visualize. Summary calculation failed." := by
  exact ⟨by decide, by decide, by decide⟩

/-- C10 (amended): whenever at least one record has a present (non-NaN)
category, the grouped per-category sum is non-empty and
`visualize_expenses` proceeds to chart rendering with that data. -/
theorem claim_C10_visualize (t : Tracker) (h : ∃ r ∈ t.expenses, r.category ≠ none) :
    ∃ chart, (ExpenseTracker.visualize_expenses t).2.1 = some chart ∧ chart ≠ [] := by
  obtain ⟨r, hr, hc⟩ := h
  obtain ⟨c, hcs⟩ : ∃ c, r.category = some c := by
    cases hcat : r.category with
    | none => exact absurd hcat hc
    | some c => exact ⟨c, rfl⟩
  have hpresent : c ∈ ExpenseTracker.presentCategories t.expenses :=
    List.mem_filterMap.mpr ⟨r, hr, hcs⟩
  have htot : (c, ExpenseTracker.groupSum t.expenses c) ∈ ExpenseTracker.categoryTotals t.expenses :=
    ExpenseTracker.mem_categoryTotals.mpr ⟨hpresent, rfl⟩
  have hne2 : ExpenseTracker.categoryTotals t.expenses ≠ [] := by
    intro hcon
    rw [hcon] at htot
    simp at htot
  have hne : t.expenses ≠ [] := by
    intro hcon
    rw [hcon] at hr
    simp at hr
  have hE : t.expenses.isEmpty = false := by
    cases hx : t.expenses.isEmpty with
    | true => exact absurd (by simpa using hx) hne
    | false => rfl
  have hE2 : (ExpenseTracker.categoryTotals t.expenses).isEmpty = false := by
    cases hx : (ExpenseTracker.categoryTotals t.expenses).isEmpty with
    | true => exact absurd (by simpa using hx) hne2
    | false => rfl
  refine ⟨ExpenseTracker.categoryTotals t.expenses, ?_, hne2⟩
  simp [ExpenseTracker.visualize_expenses, hE, hE2]

theorem claim_C10_witness :
    ∃ chart, (ExpenseTracker.visualize_expenses exLedger).2.1 = some chart ∧ chart ≠ [] :=
  claim_C10_visualize exLedger ⟨exFood1, by decide, by decide⟩

/-- The single-record ledger [("Food", 15)]. -/
def c5Tracker : Tracker := ⟨[⟨DateCell.stamp exDate, some "Food", some "Lunch", some 15⟩]⟩

/-- C5 as stated is false: `summarize_by_category` overwrites the
`Amount` column with currency-formatted text *before* returning it
(line 77), so the returned value carries display strings like "$15.00"
— not the numeric totals: the returned cell does not even parse as a
number, while the numeric group total is 15. -/
theorem claim_C5_counterexample :
    (ExpenseTracker.summarize_by_category c5Tracker).2.1 = some [("Food", "$15.00")] ∧
    ExpenseTracker.groupSum c5Tracker.expenses "Food" = 15 ∧
    parseDecimal "$15.00" = none := by
  have htot : ExpenseTracker.categoryTotals c5Tracker.expenses = [("Food", 15)] := by
    norm_num +decide [c5Tracker, exDate, ExpenseTracker.categoryTotals,
      ExpenseTracker.uniqueKeys, ExpenseTracker.presentCategories, ExpenseTracker.groupSum,
      ExpenseTracker.sortDesc, ExpenseTracker.insertDesc, List.filterMap_cons,
      List.filterMap_nil, List.sum_cons, List.sum_nil]
  refine ⟨?_, ?_, by decide⟩
  · rw [show (ExpenseTracker.summarize_by_category c5Tracker).2.1 =
        some ((ExpenseTracker.categoryTotals c5Tracker.expenses).map
          (fun p => (p.1, formatCurrency p.2))) from by
      simp [ExpenseTracker.summarize_by_category, c5Tracker]]
    rw [htot]
    decide
  · norm_num +decide [c5Tracker, exDate, ExpenseTracker.groupSum, List.filterMap_cons,
      List.filterMap_nil, List.sum_cons, List.sum_nil]

/-- C5 (amended): on a non-empty ledger `summarize_by_category` returns
the descending numeric summary with each total already rendered as
currency text: the (category, numeric total) pairs exist only inside
the computation (`categoryTotals`); what is returned is their formatted
image, so chart reuse would need the recomputation `visualize_expenses`
in fact performs. -/
theorem claim_C5_returns_formatted (t : Tracker) (h : t.expenses ≠ []) :
    (ExpenseTracker.summarize_by_category t).2.1 =
      some ((ExpenseTracker.categoryTotals t.expenses).map
        (fun p => (p.1, formatCurrency p.2))) := by
  have hE : t.expenses.isEmpty = false := by
    cases hx : t.expenses.isEmpty with
    | true => exact absurd (by simpa using hx) h
    | false => rfl
  simp [ExpenseTracker.summarize_by_category, hE]

theorem claim_C5_witness :
    (ExpenseTracker.summarize_by_category exLedger).2.1 =
      some ((ExpenseTracker.categoryTotals exLedger.expenses).map
        (fun p => (p.1, formatCurrency p.2))) :=
  claim_C5_returns_formatted exLedger (by decide)

/-- A ledger holding a timestamp with a time-of-day component (noon),
as loading a CSV date "2024-01-01 12:00:00" produces. -/
def c6Tracker : Tracker :=
  ⟨[⟨DateCell.stamp ⟨2024, 1, 1, 43200⟩, some "Food", some "Lunch", some 5⟩]⟩

/-- C6 as stated is false: `save_expenses` mutates the in-memory
DataFrame before writing — line 111 replaces the `Date` column by its
calendar-date truncation — so a record whose date carries a time
component is changed in memory by the save. -/
theorem claim_C6_counterexample :
    (ExpenseTracker.save_expenses c6Tracker true).1 ≠ c6Tracker := by decide

theorem normalizeDates_fields : ∀ {l es : List Record},
    ExpenseTracker.normalizeDates l = some es →
    es.length = l.length ∧
    es.map (fun r => (r.category, r.description, r.amount)) =
      l.map (fun r => (r.category, r.description, r.amount)) := by
  intro l
  induction l with
  | nil =>
    intro es h
    simp [ExpenseTracker.normalizeDates] at h
    subst h
    simp
  | cons r rest ih =>
    intro es h
    rw [ExpenseTracker.normalizeDates] at h
    cases h1 : ExpenseTracker.truncRecord r with
    | none =>
      rw [h1] at h
      simp at h
    | some r2 =>
      cases h2 : ExpenseTracker.normalizeDates rest with
      | none =>
        rw [h1, h2] at h
        simp at h
      | some rs =>
        rw [h1, h2] at h
        simp at h
        subst h
        have hfields : r2.category = r.category ∧ r2.description = r.description ∧
            r2.amount = r.amount := by
          rw [ExpenseTracker.truncRecord] at h1
          cases h3 : ExpenseTracker.normalizeDateCell r.date with
          | none =>
            rw [h3] at h1
            simp at h1
          | some dc =>
            rw [h3] at h1
            simp at h1
            rw [← h1]
            simp
        obtain ⟨ihl, ihm⟩ := ih h2
        refine ⟨by simp [ihl], ?_⟩
        simp [ihm, hfields.1, hfields.2.1, hfields.2.2]

/-- C6 (amended): `save_expenses` is total (the method catches every
exception), reports an I/O failure, and its only in-memory effect is
the in-place date normalization of line 111: when every date cell
converts, the new state is the ledger with dates truncated to calendar
granularity — count, order, categories, descriptions and amounts all
unchanged; when some date cell cannot convert, the state is untouched.
The I/O outcome never affects the in-memory state. -/
theorem claim_C6_save_state (t : Tracker) (ioOk : Bool) :
    ((ExpenseTracker.save_expenses t ioOk).1.expenses =
      match ExpenseTracker.normalizeDates t.expenses with
      | some es => es
      | none => t.expenses) ∧
    (∀ es, ExpenseTracker.normalizeDates t.expenses = some es →
      es.length = t.expenses.length ∧
      es.map (fun r => (r.category, r.description, r.amount)) =
        t.expenses.map (fun r => (r.category, r.description, r.amount))) ∧
    (ioOk = false →
      (ExpenseTracker.save_expenses t ioOk).2.2 = "Failed to save data.") := by
  refine ⟨?_, fun es h => normalizeDates_fields h, ?_⟩
  · cases h : ExpenseTracker.normalizeDates t.expenses with
    | none => simp [ExpenseTracker.save_expenses, h]
    | some es => cases ioOk <;> simp [ExpenseTracker.save_expenses, h]
  · intro hio
    subst hio
    cases h : ExpenseTracker.normalizeDates t.expenses with
    | none => simp [ExpenseTracker.save_expenses, h]
    | some es => simp [ExpenseTracker.save_expenses, h]

theorem claim_C6_witness :
    (ExpenseTracker.save_expenses c6Tracker false).1.expenses =
      [⟨DateCell.stamp ⟨2024, 1, 1, 0⟩, some "Food", some "Lunch", some 5⟩] ∧
    (ExpenseTracker.save_expenses c6Tracker false).2.2 = "Failed to save data." := by
  refine ⟨?_, (claim_C6_save_state c6Tracker false).2.2 rfl⟩
  rw [(claim_C6_save_state c6Tracker false).1]
  decide

/-! ### Round-trip infrastructure for save-then-load (C3) -/

theorem naParse_empty : naParse "" = none := by decide

theorem isDigit_ne_space {c : Char} (h : c.isDigit = true) : c ≠ ' ' := by
  intro hc
  subst hc
  exact absurd h (by decide)

/-- Every non-empty NA sentinel contains a character that is neither a
digit nor `-` nor `.` — so no rendered date or number collides with
one. -/
theorem naValues_witness :
    ∀ v ∈ naValues, v = "" ∨ ∃ c ∈ v.data, ¬(c.isDigit = true ∨ c = '-' ∨ c = '.') := by
  decide

theorem mk_not_na {cs : List Char} (hne : cs ≠ [])
    (hch : ∀ c ∈ cs, c.isDigit = true ∨ c = '-' ∨ c = '.') :
    String.mk cs ∉ naValues := by
  intro hmem
  rcases naValues_witness (String.mk cs) hmem with h | ⟨c, hc, hcn⟩
  · exact hne (congrArg String.data h)
  · exact hcn (hch c hc)

theorem dateChars_ne_nil {d : DateVal} : dateChars d ≠ [] := by
  rw [dateChars]
  intro h
  rcases List.append_eq_nil.mp h with ⟨h1, _⟩
  exact padNat_ne_nil (by omega) h1

theorem dateChars_chars {d : DateVal} :
    ∀ c ∈ dateChars d, c.isDigit = true ∨ c = '-' ∨ c = '.' := by
  intro c hc
  rw [dateChars] at hc
  rcases List.mem_append.mp hc with h | h
  · exact Or.inl (padNat_digits c h)
  · rcases List.mem_cons.mp h with h1 | h1
    · exact Or.inr (Or.inl h1)
    · rcases List.mem_append.mp h1 with h2 | h2
      · exact Or.inl (padNat_digits c h2)
      · rcases List.mem_cons.mp h2 with h3 | h3
        · exact Or.inr (Or.inl h3)
        · exact Or.inl (padNat_digits c h3)

theorem renderAmount_ne_nil {q : ℚ} : renderAmount q ≠ [] := by
  rw [renderAmount]
  cases hf : (List.range (q.den + 1)).find? (fun k => decide (q.den ∣ 10 ^ k)) with
  | none => simp
  | some k =>
    simp only []
    rw [renderAmountAt]
    rcases Nat.eq_zero_or_pos k with hk | hk
    · rw [if_pos hk]
      intro h
      simp [List.append_eq_nil] at h
    · rw [if_neg (by omega)]
      intro h
      simp [List.append_eq_nil] at h

theorem renderAmount_chars {q : ℚ} :
    ∀ c ∈ renderAmount q, c.isDigit = true ∨ c = '-' ∨ c = '.' := by
  intro c hc
  rw [renderAmount] at hc
  cases hf : (List.range (q.den + 1)).find? (fun k => decide (q.den ∣ 10 ^ k)) with
  | none =>
    rw [hf] at hc
    simp at hc
    subst hc
    exact Or.inl (by decide)
  | some k =>
    rw [hf] at hc
    rcases renderAmountAt_chars c hc with h | h | h
    · exact Or.inr (Or.inl h)
    · exact Or.inr (Or.inr h)
    · exact Or.inl h

theorem parseDate_dateChars {y mo dy sec : ℕ} :
    parseDateChars (dateChars ⟨y, mo, dy, sec⟩) = some (⟨y, mo, dy, 0⟩ : DateVal) := by
  have hdash : ∀ (j n : ℕ), ∀ x ∈ padNat j n, (fun c => decide (c = '-')) x = false := by
    intro j n x hx
    simp [(isDigit_char_ne (padNat_digits x hx)).2.2.2.1]
  have hspace : ∀ (j n : ℕ), ∀ x ∈ padNat j n, (fun c => decide (c = ' ')) x = false := by
    intro j n x hx
    simp [isDigit_ne_space (padNat_digits x hx)]
  have h1 : splitFirst (fun c => decide (c = '-'))
      (padNat 4 y ++ '-' :: (padNat 2 mo ++ '-' :: padNat 2 dy)) =
      (padNat 4 y, some (padNat 2 mo ++ '-' :: padNat 2 dy)) :=
    splitFirst_found (hdash 4 y) (by decide)
  have h2 : splitFirst (fun c => decide (c = '-')) (padNat 2 mo ++ '-' :: padNat 2 dy) =
      (padNat 2 mo, some (padNat 2 dy)) :=
    splitFirst_found (hdash 2 mo) (by decide)
  have h3 : splitFirst (fun c => decide (c = ' ')) (padNat 2 dy) = (padNat 2 dy, none) :=
    splitFirst_of_all_neg (hspace 2 dy)
  simp only [dateChars, parseDateChars, h1, h2, h3,
    parseNatList_padNat (by omega : (0:ℕ) < 4), parseNatList_padNat (by omega : (0:ℕ) < 2)]

/-- A text field that survives the CSV round trip: not an NA sentinel
(pandas reads those back as missing), and not a string that `read_csv`
type inference would turn into a non-string cell when the whole column
consists of such values (numeric literals, booleans, infinities). -/
def SafeText (s : String) : Prop :=
  s ∉ naValues ∧ parseDecimal s = none ∧
    s ∉ ["True", "False", "TRUE", "FALSE", "true", "false",
         "inf", "-inf", "+inf", "Infinity", "-Infinity", "+Infinity"]

/-- A record whose save-then-load image can be faithful: text fields
survive the CSV conventions, the amount is a decimal-denominator
rational (every Python float is), and the date cell is not raw text. -/
def SafeRecord (r : Record) : Prop :=
  (∀ s, r.category = some s → SafeText s) ∧
  (∀ s, r.description = some s → SafeText s) ∧
  (∀ q, r.amount = some q → ∃ K, q.den ∣ 10 ^ K) ∧
  (∀ s, r.date ≠ DateCell.text s)

theorem normalizeDates_isSome {l : List Record}
    (h : ∀ r ∈ l, ∀ s, r.date ≠ DateCell.text s) :
    ∃ es, ExpenseTracker.normalizeDates l = some es := by
  induction l with
  | nil => exact ⟨[], rfl⟩
  | cons r rest ih =>
    obtain ⟨es, hes⟩ := ih (fun x hx => h x (List.mem_cons_of_mem r hx))
    obtain ⟨dc, hdc⟩ : ∃ dc, ExpenseTracker.normalizeDateCell r.date = some dc := by
      cases hd : r.date with
      | missing => exact ⟨DateCell.missing, rfl⟩
      | stamp d => exact ⟨DateCell.stamp (ExpenseTracker.truncStamp d), rfl⟩
      | text s => exact absurd hd (h r (List.mem_cons_self r rest) s)
    refine ⟨{ r with date := dc } :: es, ?_⟩
    rw [ExpenseTracker.normalizeDates]
    rw [show ExpenseTracker.truncRecord r = some { r with date := dc } from by
      rw [ExpenseTracker.truncRecord, hdc]; rfl]
    rw [hes]

theorem normalizeDateCell_shape {x dc : DateCell}
    (h : ExpenseTracker.normalizeDateCell x = some dc) :
    dc = DateCell.missing ∨ ∃ y mo dy, dc = DateCell.stamp ⟨y, mo, dy, 0⟩ := by
  cases x with
  | missing =>
    rw [ExpenseTracker.normalizeDateCell] at h
    exact Or.inl (Option.some.inj h).symm
  | stamp d =>
    rw [ExpenseTracker.normalizeDateCell] at h
    exact Or.inr ⟨d.year, d.month, d.day, (Option.some.inj h).symm⟩
  | text s =>
    rw [ExpenseTracker.normalizeDateCell] at h
    cases hp : parseDate s with
    | none =>
      rw [hp] at h
      simp at h
    | some d =>
      rw [hp] at h
      simp at h
      exact Or.inr ⟨d.year, d.month, d.day, h.symm⟩

theorem normalizeDates_elements : ∀ {l es : List Record},
    ExpenseTracker.normalizeDates l = some es →
    ∀ r2 ∈ es, ∃ r ∈ l,
      r2.category = r.category ∧ r2.description = r.description ∧ r2.amount = r.amount ∧
      (r2.date = DateCell.missing ∨ ∃ y mo dy, r2.date = DateCell.stamp ⟨y, mo, dy, 0⟩) := by
  intro l
  induction l with
  | nil =>
    intro es h r2 hr2
    simp [ExpenseTracker.normalizeDates] at h
    subst h
    simp at hr2
  | cons r rest ih =>
    intro es h r2 hr2
    rw [ExpenseTracker.normalizeDates] at h
    cases h1 : ExpenseTracker.truncRecord r with
    | none =>
      rw [h1] at h
      simp at h
    | some rr =>
      cases h2 : ExpenseTracker.normalizeDates rest with
      | none =>
        rw [h1, h2] at h
        simp at h
      | some rs =>
        rw [h1, h2] at h
        simp at h
        subst h
        rcases List.mem_cons.mp hr2 with h3 | h3
        · subst h3
          rw [ExpenseTracker.truncRecord] at h1
          cases h4 : ExpenseTracker.normalizeDateCell r.date with
          | none =>
            rw [h4] at h1
            simp at h1
          | some dc =>
            rw [h4] at h1
            simp at h1
            refine ⟨r, List.mem_cons_self r rest, ?_⟩
            rw [← h1]
            exact ⟨rfl, rfl, rfl, normalizeDateCell_shape h4⟩
        · obtain ⟨r0, hr0, hp⟩ := ih h2 r2 h3
          exact ⟨r0, List.mem_cons_of_mem r hr0, hp⟩

theorem loadRow_rawOfRecord {r : Record}
    (hdate : r.date = DateCell.missing ∨ ∃ y mo dy, r.date = DateCell.stamp ⟨y, mo, dy, 0⟩)
    (hcat : ∀ s, r.category = some s → s ∉ naValues)
    (hdesc : ∀ s, r.description = some s → s ∉ naValues)
    (hamt : ∀ q, r.amount = some q → ∃ K, q.den ∣ 10 ^ K) :
    ExpenseTracker.loadRow true (ExpenseTracker.rawOfRecord r) = r := by
  have hdatef : ExpenseTracker.loadDateCell true (naParse (ExpenseTracker.rawOfRecord r).date) =
      r.date := by
    rcases hdate with h | ⟨y, mo, dy, h⟩
    · rw [show (ExpenseTracker.rawOfRecord r).date = "" from by
        rw [ExpenseTracker.rawOfRecord, h]]
      rw [naParse_empty, h]
      rfl
    · rw [show (ExpenseTracker.rawOfRecord r).date =
          String.mk (dateChars ⟨y, mo, dy, 0⟩) from by
        rw [ExpenseTracker.rawOfRecord, h]]
      rw [show naParse (String.mk (dateChars ⟨y, mo, dy, 0⟩)) =
          some (String.mk (dateChars ⟨y, mo, dy, 0⟩)) from by
        rw [naParse, if_neg (mk_not_na dateChars_ne_nil dateChars_chars)]]
      rw [ExpenseTracker.loadDateCell]
      rw [show parseDate (String.mk (dateChars ⟨y, mo, dy, 0⟩)) =
          some (⟨y, mo, dy, 0⟩ : DateVal) from parseDate_dateChars]
      rw [h]
      rfl
  have hcatf : naParse (ExpenseTracker.rawOfRecord r).category = r.category := by
    cases hc : r.category with
    | none =>
      rw [show (ExpenseTracker.rawOfRecord r).category = "" from by
        rw [ExpenseTracker.rawOfRecord, hc]; rfl]
      exact naParse_empty
    | some s =>
      rw [show (ExpenseTracker.rawOfRecord r).category = s from by
        rw [ExpenseTracker.rawOfRecord, hc]; rfl]
      rw [naParse, if_neg (hcat s hc)]
  have hdescf : naParse (ExpenseTracker.rawOfRecord r).description = r.description := by
    cases hc : r.description with
    | none =>
      rw [show (ExpenseTracker.rawOfRecord r).description = "" from by
        rw [ExpenseTracker.rawOfRecord, hc]; rfl]
      exact naParse_empty
    | some s =>
      rw [show (ExpenseTracker.rawOfRecord r).description = s from by
        rw [ExpenseTracker.rawOfRecord, hc]; rfl]
      rw [naParse, if_neg (hdesc s hc)]
  have hamtf : (naParse (ExpenseTracker.rawOfRecord r).amount).bind parseDecimal = r.amount := by
    cases ha : r.amount with
    | none =>
      rw [show (ExpenseTracker.rawOfRecord r).amount = "" from by
        rw [ExpenseTracker.rawOfRecord, ha]]
      rw [naParse_empty]
      rfl
    | some q =>
      rw [show (ExpenseTracker.rawOfRecord r).amount = String.mk (renderAmount q) from by
        rw [ExpenseTracker.rawOfRecord, ha]]
      rw [show naParse (String.mk (renderAmount q)) = some (String.mk (renderAmount q)) from by
        rw [naParse, if_neg (mk_not_na renderAmount_ne_nil renderAmount_chars)]]
      exact parseDecimal_renderAmount (hamt q ha)
  rw [ExpenseTracker.loadRow, hdatef, hcatf, hdescf, hamtf]

theorem dateColumnOK_raw {es : List Record}
    (hd : ∀ r2 ∈ es,
      r2.date = DateCell.missing ∨ ∃ y mo dy, r2.date = DateCell.stamp ⟨y, mo, dy, 0⟩) :
    ExpenseTracker.dateColumnOK (es.map ExpenseTracker.rawOfRecord) = true := by
  rw [ExpenseTracker.dateColumnOK, List.all_eq_true]
  intro w hw
  obtain ⟨r2, hr2, hweq⟩ := List.mem_map.mp hw
  subst hweq
  rcases hd r2 hr2 with h | ⟨y, mo, dy, h⟩
  · rw [show (ExpenseTracker.rawOfRecord r2).date = "" from by
      rw [ExpenseTracker.rawOfRecord, h]]
    rw [naParse_empty]
  · rw [show (ExpenseTracker.rawOfRecord r2).date =
        String.mk (dateChars ⟨y, mo, dy, 0⟩) from by
      rw [ExpenseTracker.rawOfRecord, h]]
    rw [show naParse (String.mk (dateChars ⟨y, mo, dy, 0⟩)) =
        some (String.mk (dateChars ⟨y, mo, dy, 0⟩)) from by
      rw [naParse, if_neg (mk_not_na dateChars_ne_nil dateChars_chars)]]
    simp only []
    rw [show parseDate (String.mk (dateChars ⟨y, mo, dy, 0⟩)) =
        some (⟨y, mo, dy, 0⟩ : DateVal) from parseDate_dateChars]
    rfl

/-- The pre-save ledger of the counterexample: one record whose
description is the *empty string* (reachable: `add_expense` accepts an
empty description input, `"".strip()` is `""`). -/
def c3Tracker : Tracker := ⟨[⟨DateCell.stamp exDate, some "Food", some "", some 5⟩]⟩

/-- What `save_expenses` writes for it. -/
def c3Saved : List RawRow := [⟨"2024-01-01", "Food", "", "5.0"⟩]

/-- C3 as stated is false: `to_csv` writes the empty-string description
as an empty field, and `read_csv` reads an empty field back as missing
(`NaN`), so after save-then-load the (date, category, description,
amount) tuple differs from the pre-save record in its description —
`none` instead of `some ""` — which no date truncation explains. -/
theorem claim_C3_counterexample :
    (ExpenseTracker.save_expenses c3Tracker true).2.1 = some c3Saved ∧
    (ExpenseTracker.init (ExpenseTracker.FileData.table c3Saved)).1.expenses.map
        (fun r => r.description) = [none] ∧
    c3Tracker.expenses.map (fun r => r.description) = [some ""] := by
  exact ⟨by decide, by decide, by decide⟩

/-- C3 (amended): for every ledger whose records are `SafeRecord` —
text fields outside the CSV missing-value/type-inference conventions,
decimal-representable amounts, no raw-text dates — `save` then a fresh
construction from the written content yields exactly the date-truncated
image of the pre-save records: same count, same (category, description,
amount) tuples, dates at calendar granularity. -/
theorem claim_C3_roundtrip (t : Tracker) (hsafe : ∀ r ∈ t.expenses, SafeRecord r) :
    ∃ content es,
      ExpenseTracker.normalizeDates t.expenses = some es ∧
      es.length = t.expenses.length ∧
      es.map (fun r => (r.category, r.description, r.amount)) =
        t.expenses.map (fun r => (r.category, r.description, r.amount)) ∧
      (ExpenseTracker.save_expenses t true).2.1 = some content ∧
      (ExpenseTracker.init (ExpenseTracker.FileData.table content)).1.expenses = es := by
  obtain ⟨es, hes⟩ := normalizeDates_isSome (fun r hr => (hsafe r hr).2.2.2)
  obtain ⟨hlen, hmap⟩ := normalizeDates_fields hes
  have helem := normalizeDates_elements hes
  have hrows : ∀ r2 ∈ es, ExpenseTracker.loadRow true (ExpenseTracker.rawOfRecord r2) = r2 := by
    intro r2 hr2
    obtain ⟨r, hr, hceq, hdeq, haeq, hdshape⟩ := helem r2 hr2
    apply loadRow_rawOfRecord hdshape
    · intro s hs
      exact ((hsafe r hr).1 s (hceq ▸ hs)).1
    · intro s hs
      exact ((hsafe r hr).2.1 s (hdeq ▸ hs)).1
    · intro q hq
      exact (hsafe r hr).2.2.1 q (haeq ▸ hq)
  have hcol : ExpenseTracker.dateColumnOK (es.map ExpenseTracker.rawOfRecord) = true :=
    dateColumnOK_raw (fun r2 hr2 => by
      obtain ⟨r, hr, _, _, _, hshape⟩ := helem r2 hr2
      exact hshape)
  refine ⟨es.map ExpenseTracker.rawOfRecord, es, hes, hlen, hmap, ?_, ?_⟩
  · simp [ExpenseTracker.save_expenses, hes]
  · simp only [ExpenseTracker.init, hcol, List.map_map]
    have hid : ∀ (l : List Record),
        (∀ r2 ∈ l, ExpenseTracker.loadRow true (ExpenseTracker.rawOfRecord r2) = r2) →
        l.map (fun r2 => ExpenseTracker.loadRow true (ExpenseTracker.rawOfRecord r2)) = l := by
      intro l
      induction l with
      | nil => intro _; rfl
      | cons x xs ih =>
        intro hl
        simp only [List.map_cons, hl x (List.mem_cons_self x xs),
          ih (fun y hy => hl y (List.mem_cons_of_mem x hy))]
    exact hid es hrows

theorem claim_C3_witness :
    ∃ content es,
      ExpenseTracker.normalizeDates exLedger.expenses = some es ∧
      es.length = exLedger.expenses.length ∧
      es.map (fun r => (r.category, r.description, r.amount)) =
        exLedger.expenses.map (fun r => (r.category, r.description, r.amount)) ∧
      (ExpenseTracker.save_expenses exLedger true).2.1 = some content ∧
      (ExpenseTracker.init (ExpenseTracker.FileData.table content)).1.expenses = es := by
  apply claim_C3_roundtrip exLedger
  intro r hr
  have hmem : r = exFood1 ∨ r = exFood2 ∨ r = exRent := by
    simpa [exLedger] using hr
  have hsafe : ∀ s : Record, s = exFood1 ∨ s = exFood2 ∨ s = exRent → SafeRecord s := by
    intro s hs
    have hamt : ∀ q : ℚ, s.amount = some q → ∃ K, q.den ∣ 10 ^ K := by
      intro q hq
      rcases hs with h | h | h <;> subst h <;>
        exact ⟨0, by rw [show q = _ from (Option.some.inj hq).symm]; decide⟩
    refine ⟨?_, ?_, hamt, ?_⟩
    · intro s2 hs2
      rcases hs with h | h | h <;> subst h <;>
        (rw [show s2 = _ from (Option.some.inj hs2).symm]; exact ⟨by decide, by decide, by decide⟩)
    · intro s2 hs2
      rcases hs with h | h | h <;> subst h <;>
        (rw [show s2 = _ from (Option.some.inj hs2).symm]; exact ⟨by decide, by decide, by decide⟩)
    · intro s2 hs2
      rcases hs with h | h | h <;> subst h <;> simp [exFood1, exFood2, exRent] at hs2
  exact hsafe r hmem
